import Mathlib

/-!
Verification of the kanban markdown transcoder: a shallow embedding of the
line-oriented parser (parseMarkdown), the generator (generateMarkdown) and the
link extractor (extractLinks), together with theorems settling the spec claims.

The embedding mirrors the JavaScript source statement by statement.  Lines are
lists of characters; model strings are Lean strings; JavaScript numbers that can
go negative (indentation built from String.prototype.search, which yields -1)
are integers; the parse failure is an Except error.
-/

namespace Kanban

/-- Whitespace test used for the JavaScript trim operation and for the regex
classes backslash-s and backslash-S (the ASCII part, which is all the parser's
inputs exercise). -/
def isWS (c : Char) : Bool :=
  c == ' ' || c == '\t' || c == '\n' || c == '\r' || c == '\x0b' || c == '\x0c'

/-- JavaScript String.prototype.trim on a line of characters. -/
def jsTrim (l : List Char) : List Char :=
  ((l.dropWhile isWS).reverse.dropWhile isWS).reverse

/-- Trim applied at the String level (used for the final content cleanup). -/
def jsTrimStr (s : String) : String := String.mk (jsTrim s.data)

/-- JavaScript String.prototype.split with separator a newline: always returns
one more piece than there are separators, so the empty text gives one empty
line. -/
def splitOnNl : List Char → List (List Char)
  | [] => [[]]
  | c :: rest =>
    if c == '\n' then [] :: splitOnNl rest
    else
      match splitOnNl rest with
      | [] => [[c]]
      | hd :: tl => (c :: hd) :: tl

/-- JavaScript String.prototype.startsWith: first argument the pattern, second
the scanned text. -/
def startsWith : List Char → List Char → Bool
  | [], _ => true
  | _ :: _, [] => false
  | p :: ps, c :: cs => p == c && startsWith ps cs

/-- JavaScript String.prototype.includes: does the pattern occur as a
contiguous substring. -/
def containsSub (pat : List Char) : List Char → Bool
  | [] => pat.isEmpty
  | c :: rest => startsWith pat (c :: rest) || containsSub pat rest

/-- JavaScript String.prototype.search with the non-whitespace regex: index of
the first non-whitespace character, or -1 when every character is whitespace. -/
def search : List Char → Int
  | [] => -1
  | c :: rest =>
    if isWS c then
      let r := search rest
      if r == -1 then -1 else r + 1
    else 0

/-- Token constants of the parser, written once so the step function reads like
the source. -/
def fenceTok : List Char := "```".data

def headingTok : List Char := "##".data

def dashTok : List Char := "-".data

def hrTok : List Char := "---".data

def pctTok : List Char := "%".data

def cbEmptyTok : List Char := "[ ]".data

def cbLowerTok : List Char := "[x]".data

def cbUpperTok : List Char := "[X]".data

/-- ASCII word character, the regex class backslash-w. -/
def isWordChar (c : Char) : Bool :=
  ('a' ≤ c && c ≤ 'z') || ('A' ≤ c && c ≤ 'Z') || ('0' ≤ c && c ≤ '9') || c == '_'

/-- Character allowed inside a tag token: word character or hyphen. -/
def isTagChar (c : Char) : Bool := isWordChar c || c == '-'

/-- Global scan of the tag regex hash followed by one or more word-or-hyphen
characters; collects every non-overlapping match left to right, never mutating
the scanned text (the source only reads the matches).  The fuel argument, which
the wrapper instantiates with the text length, bounds the number of scan
positions and only serves termination. -/
def extractTagsAux : Nat → List Char → List String
  | 0, _ => []
  | _ + 1, [] => []
  | fuel + 1, c :: rest =>
    if c == '#' then
      let run := rest.takeWhile isTagChar
      if run.isEmpty then extractTagsAux fuel rest
      else String.mk run :: extractTagsAux fuel (rest.drop run.length)
    else extractTagsAux fuel rest

/-- The tag extraction of the card branch. -/
def extractTags (l : List Char) : List String := extractTagsAux l.length l

/-- ASCII digit test, the regex class backslash-d. -/
def isDigit (c : Char) : Bool := '0' ≤ c && c ≤ '9'

/-- Does the text begin with the literal due-date token; if so return the
captured ten-character date and the remainder after the closing paren. -/
def dueDateAt (l : List Char) : Option (List Char × List Char) :=
  match l with
  | '@' :: 'd' :: 'u' :: 'e' :: '(' :: y1 :: y2 :: y3 :: y4 :: '-' :: m1 :: m2 :: '-' :: d1 :: d2 :: ')' :: rest =>
    if isDigit y1 && isDigit y2 && isDigit y3 && isDigit y4 &&
       isDigit m1 && isDigit m2 && isDigit d1 && isDigit d2 then
      some ([y1, y2, y3, y4, '-', m1, m2, '-', d1, d2], rest)
    else none
  | _ => none

/-- Leftmost match of the due-date regex: the text before the match, the
captured date, and the text after the match. -/
def findDueDate : List Char → Option (List Char × List Char × List Char)
  | [] => none
  | c :: rest =>
    match dueDateAt (c :: rest) with
    | some (date, after) => some ([], date, after)
    | none =>
      match findDueDate rest with
      | some (pre, date, after) => some (c :: pre, date, after)
      | none => none

/-- The due-date extraction of the card branch: record the first match and
remove it from the working text, then trim; no match leaves the text alone. -/
def extractDueDate (l : List Char) : List Char × Option (List Char) :=
  match findDueDate l with
  | some (pre, date, after) => (jsTrim (pre ++ after), some date)
  | none => (l, none)

/-- Case-insensitive version of startsWith, for the priority regex flag i. -/
def ciStartsWith : List Char → List Char → Bool
  | [], _ => true
  | _ :: _, [] => false
  | p :: ps, c :: cs => p.toLower == c.toLower && ciStartsWith ps cs

/-- Does the text begin with a priority token: a bang followed by high, medium
or low, case-insensitively, alternatives tried in that order; returns the
lower-cased capture and the remainder. -/
def priorityAt (l : List Char) : Option (String × List Char) :=
  match l with
  | '!' :: rest =>
    if ciStartsWith ("high".data) rest then some ("high", rest.drop 4)
    else if ciStartsWith ("medium".data) rest then some ("medium", rest.drop 6)
    else if ciStartsWith ("low".data) rest then some ("low", rest.drop 3)
    else none
  | _ => none

/-- Leftmost match of the priority regex. -/
def findPriority : List Char → Option (List Char × String × List Char)
  | [] => none
  | c :: rest =>
    match priorityAt (c :: rest) with
    | some (p, after) => some ([], p, after)
    | none =>
      match findPriority rest with
      | some (pre, p, after) => some (c :: pre, p, after)
      | none => none

/-- The priority extraction of the card branch: record the lower-cased first
match and remove the matched token from the working text, then trim. -/
def extractPriority (l : List Char) : List Char × Option String :=
  match findPriority l with
  | some (pre, p, after) => (jsTrim (pre ++ after), some p)
  | none => (l, none)

/-- One link of a card: display text and target. -/
structure LinkRef where
  text : String
  href : String
deriving DecidableEq, Repr

/-- Does the text begin with an inline markdown link: bracketed label without
brackets inside, then parenthesised url without parens inside; both greedy runs
are forced, so the match is deterministic.  Returns label, url and the
remainder after the match. -/
def mdLinkAt (l : List Char) : Option (List Char × List Char × List Char) :=
  match l with
  | '[' :: rest =>
    let lab := rest.takeWhile (fun c => !(c == '[' || c == ']'))
    if lab.isEmpty then none
    else
      match rest.drop lab.length with
      | ']' :: '(' :: r2 =>
        let url := r2.takeWhile (fun c => !(c == '(' || c == ')'))
        if url.isEmpty then none
        else
          match r2.drop url.length with
          | ')' :: r3 => some (lab, url, r3)
          | _ => none
      | _ => none
  | _ => none

/-- Global scan of the inline-link regex, left to right, resuming after each
match; the fuel argument (instantiated with the text length, which bounds the
number of scan positions) only serves termination. -/
def scanMdLinks : Nat → List Char → List LinkRef
  | 0, _ => []
  | _ + 1, [] => []
  | fuel + 1, c :: rest =>
    match mdLinkAt (c :: rest) with
    | some (lab, url, r3) => ⟨String.mk lab, String.mk url⟩ :: scanMdLinks fuel r3
    | none => scanMdLinks fuel rest

/-- Character allowed in a bare url: not whitespace and not a closing paren. -/
def isUrlChar (c : Char) : Bool := !(isWS c) && !(c == ')')

/-- Does the text begin with a bare url: the literal scheme then a non-empty
greedy run of url characters. -/
def bareUrlAt (l : List Char) : Option (List Char × List Char) :=
  if startsWith ("https://".data) l then
    let rest := l.drop 8
    let run := rest.takeWhile isUrlChar
    if run.isEmpty then none else some ("https://".data ++ run, rest.drop run.length)
  else if startsWith ("http://".data) l then
    let rest := l.drop 7
    let run := rest.takeWhile isUrlChar
    if run.isEmpty then none else some ("http://".data ++ run, rest.drop run.length)
  else none

/-- Global scan of the bare-url regex with its negative lookbehind for an open
paren: prev is the character before the current position (none at the start of
the text); after a match the scan resumes right after it. -/
def scanBareUrls : Nat → Option Char → List Char → List (List Char)
  | 0, _, _ => []
  | _ + 1, _, [] => []
  | fuel + 1, prev, c :: rest =>
    if prev == some '(' then scanBareUrls fuel (some c) rest
    else
      match bareUrlAt (c :: rest) with
      | some (url, r2) => url :: scanBareUrls fuel url.getLast? r2
      | none => scanBareUrls fuel (some c) rest

/-- The link extractor: pass one collects the inline links, pass two appends
each bare url that is not already the target of a link collected so far. -/
def extractLinks (text : String) : List LinkRef :=
  let links := scanMdLinks text.data.length text.data
  let bares := scanBareUrls text.data.length none text.data
  bares.foldl
    (fun links url =>
      if links.any (fun lk => lk.href == String.mk url) then links
      else links ++ [⟨String.mk url, String.mk url⟩])
    links

/-- A nested checklist item of a card. -/
structure Subtask where
  text : String
  completed : Bool
  indentation : Int
deriving DecidableEq, Repr

/-- A card: the fields created by the card branch of the parser. -/
structure Card where
  text : String
  completed : Bool
  indentation : Int
  content : String
  subtasks : List Subtask
  tags : List String
  dueDate : Option String
  priority : Option String
  links : List LinkRef
deriving DecidableEq, Repr

/-- A column: a level-two heading with its cards. -/
structure Column where
  title : String
  cards : List Card
deriving DecidableEq, Repr

/-- The parser's cursor state.  The source holds object references currentColumn
and currentCard; currentColumn is only ever the most recently pushed column and
is never reset, so its truthiness is exactly columns being non-empty, and
currentCard, when set, is always the last card of the last column, so a boolean
flag suffices. -/
structure PState where
  columns : List Column
  cardOpen : Bool
  inCodeBlock : Bool
  indentationLevel : Int
deriving DecidableEq, Repr

/-- Initial cursor state. -/
def initState : PState := ⟨[], false, false, 0⟩

/-- Replace the last element of a list, if any. -/
def modifyLast {α : Type} (f : α → α) : List α → List α
  | [] => []
  | [a] => [f a]
  | a :: b :: rest => a :: modifyLast f (b :: rest)

/-- Push a card onto the current (= last) column. -/
def pushCard (cols : List Column) (card : Card) : List Column :=
  modifyLast (fun col => { col with cards := col.cards ++ [card] }) cols

/-- Mutate the current card, which is the last card of the last column. -/
def modifyLastCard (f : Card → Card) (cols : List Column) : List Column :=
  modifyLast (fun col => { col with cards := modifyLast f col.cards }) cols

/-- The content append of the source: current card content plus the raw line
plus a newline. -/
def appendContent (cols : List Column) (line : List Char) : List Column :=
  modifyLastCard (fun c => { c with content := c.content ++ String.mk (line ++ ['\n']) }) cols

/-- The heading title: drop a leading pair of hashes followed by whitespace if
present (the anchored regex replace), then trim. -/
def headingTitle (t : List Char) : List Char :=
  match t with
  | '#' :: '#' :: c :: rest =>
    if isWS c then jsTrim ((c :: rest).dropWhile isWS) else jsTrim t
  | _ => jsTrim t

/-- Checkbox detection shared by the card and subtask branches: strip a leading
open or checked box and report completion; no box means incomplete. -/
def stripCheckbox (t : List Char) : List Char × Bool :=
  if startsWith cbEmptyTok t then (jsTrim (t.drop 3), false)
  else if startsWith cbLowerTok t || startsWith cbUpperTok t then (jsTrim (t.drop 3), true)
  else (t, false)

/-- The card construction of the card branch: strip the dash, the checkbox,
collect tags (without removing them from the text), then remove the first
due-date match, then the first priority match, and extract links from what is
left. -/
def mkCard (trimmedLine : List Char) (indentLvl : Int) : Card :=
  let t0 := jsTrim (trimmedLine.drop 1)
  let (t1, isCompleted) := stripCheckbox t0
  let tags := extractTags t1
  let (t2, dueDate) := extractDueDate t1
  let (t3, priority) := extractPriority t2
  { text := String.mk t3
    completed := isCompleted
    indentation := indentLvl
    content := ""
    subtasks := []
    tags := tags
    dueDate := dueDate.map String.mk
    priority := priority
    links := extractLinks (String.mk t3) }

/-- The subtask construction: strip the dash and the checkbox, no metadata
extraction; the stored indentation is relative to the parent card. -/
def mkSubtask (trimmedLine : List Char) (relIndent : Int) : Subtask :=
  let t0 := jsTrim (trimmedLine.drop 1)
  let (t1, isCompleted) := stripCheckbox t0
  { text := String.mk t1, completed := isCompleted, indentation := relIndent }

/-- One iteration of the parser's line loop, following the source branch by
branch.  The boolean result is the re-dispatch request of the new-card check
inside the continuation branch (the source decrements the loop index and
continues, reprocessing the same line with the card closed). -/
def step (s : PState) (line : List Char) : PState × Bool :=
  let trimmedLine := jsTrim line
  if startsWith fenceTok trimmedLine then
    let s1 : PState := { s with inCodeBlock := !s.inCodeBlock }
    if s1.cardOpen then ({ s1 with columns := appendContent s1.columns line }, false)
    else (s1, false)
  else if (trimmedLine.isEmpty || startsWith hrTok trimmedLine || startsWith pctTok trimmedLine)
          && !s.cardOpen then
    (s, false)
  else if s.inCodeBlock && s.cardOpen then
    ({ s with columns := appendContent s.columns line }, false)
  else if startsWith headingTok trimmedLine then
    ({ s with columns := s.columns ++ [⟨String.mk (headingTitle trimmedLine), []⟩],
              cardOpen := false }, false)
  else if startsWith dashTok trimmedLine && !s.columns.isEmpty then
    let indentLvl := Int.fdiv (search line) 2
    ({ s with columns := pushCard s.columns (mkCard trimmedLine indentLvl),
              cardOpen := true,
              indentationLevel := indentLvl }, false)
  else if !s.columns.isEmpty && s.cardOpen then
    if startsWith dashTok trimmedLine then
      if s.indentationLevel < Int.fdiv (search line) 2 then
        ({ s with columns := (modifyLastCard
            (fun c => { c with subtasks := c.subtasks ++
              [mkSubtask trimmedLine (Int.fdiv (search line) 2 - s.indentationLevel)] })
            s.columns) }, false)
      else if containsSub cbEmptyTok trimmedLine || containsSub cbLowerTok trimmedLine
              || containsSub cbUpperTok trimmedLine then
        ({ s with cardOpen := false }, true)
      else
        ({ s with columns := appendContent s.columns line }, false)
    else if startsWith dashTok trimmedLine
            && (containsSub cbEmptyTok trimmedLine || containsSub cbLowerTok trimmedLine
                || containsSub cbUpperTok trimmedLine) then
      ({ s with cardOpen := false }, true)
    else
      ({ s with columns := appendContent s.columns line }, false)
  else (s, false)

/-- Process one line, honouring at most one re-dispatch request: the request
closes the card, and with the card closed the continuation branch that issues
requests is unreachable, so one retry always suffices (the source re-runs the
loop body on the same index). -/
def runLine (s : PState) (line : List Char) : PState :=
  match step s line with
  | (s1, false) => s1
  | (s1, true) => (step s1 line).1

/-- The parser on an already split line list: fold the line loop, trim every
card's accumulated content, and fail when no column was produced. -/
def parseLines (lines : List (List Char)) : Except String (List Column) :=
  let finalState := lines.foldl runLine initState
  let columns := finalState.columns.map
    (fun col => { col with cards := (col.cards.map
      (fun c => { c with content := jsTrimStr c.content })) })
  if columns.isEmpty then
    Except.error "No valid kanban columns found in the markdown file"
  else Except.ok columns

/-- The parser: split the text on newlines and run the line loop. -/
def parseMarkdown (markdown : String) : Except String (List Column) :=
  parseLines (splitOnNl markdown.data)

/-- Two spaces per indentation level (String.prototype.repeat; negative levels
cannot arise from parsing). -/
def indentStr (n : Int) : String := String.mk (List.replicate (2 * n.toNat) ' ')

/-- The generator's leading frontmatter block. -/
def frontMatterStr : String := "---\n\nkanban-plugin: board\n\n---\n\n"

/-- The generator's trailing settings block. -/
def settingsStr : String :=
  "%% kanban:settings\n```\n\x7b\"kanban-plugin\":\"board\"\x7d\n```\n%%\n"

/-- Checkbox token of the generator. -/
def checkboxStr (b : Bool) : String := if b then "[x]" else "[ ]"

/-- The card line of the generator: indentation, dash, checkbox, text, then
optional priority and due-date tokens, then one token per stored tag unless the
line built so far already contains that literal hash-tag substring. -/
def genCardLine (card : Card) : String :=
  let base := indentStr card.indentation ++ "- " ++ checkboxStr card.completed ++ " " ++ card.text
  let base :=
    match card.priority with
    | some p => if p.isEmpty then base else base ++ " !" ++ p
    | none => base
  let base :=
    match card.dueDate with
    | some d => if d.isEmpty then base else base ++ " @due(" ++ d ++ ")"
    | none => base
  card.tags.foldl
    (fun cardLine tag =>
      if containsSub ('#' :: tag.data) cardLine.data then cardLine
      else cardLine ++ " #" ++ tag)
    base

/-- The generator's card section: the card line, then the content lines each
re-indented two spaces past the card (when content is non-empty), then the
subtasks, then a blank line. -/
def genCard (md : String) (card : Card) : String :=
  let indent := indentStr card.indentation
  let md := md ++ genCardLine card ++ "\n"
  let md :=
    if card.content.isEmpty then md
    else (splitOnNl card.content.data).foldl
      (fun m l => m ++ indent ++ "  " ++ String.mk l ++ "\n") md
  let md := card.subtasks.foldl
    (fun m st =>
      m ++ indentStr (card.indentation + (if st.indentation = 0 then 1 else st.indentation))
        ++ "- " ++ checkboxStr st.completed ++ " " ++ st.text ++ "\n")
    md
  md ++ "\n"

/-- The generator's column section: heading, blank line, the cards, then one
more blank line. -/
def genColumn (md : String) (col : Column) : String :=
  let md := md ++ "## " ++ col.title ++ "\n\n"
  let md := col.cards.foldl genCard md
  md ++ "\n"

/-- The generator: frontmatter, the columns in order, the settings trailer. -/
def generateMarkdown (columns : List Column) : String :=
  (columns.foldl genColumn frontMatterStr) ++ settingsStr

/-- Is some line of the input a column heading after trimming. -/
def hasHeadingLine (lines : List (List Char)) : Bool :=
  lines.any (fun l => startsWith headingTok (jsTrim l))

/-!
The spec-side definitions and the composition used by the claims.
-/

instance {ε α : Type} [DecidableEq ε] [DecidableEq α] : DecidableEq (Except ε α) :=
  fun a b =>
    match a, b with
    | .ok x, .ok y =>
      if h : x = y then isTrue (by rw [h]) else isFalse (fun hh => by cases hh; exact h rfl)
    | .error e, .error f =>
      if h : e = f then isTrue (by rw [h]) else isFalse (fun hh => by cases hh; exact h rfl)
    | .ok _, .error _ => isFalse (fun hh => by cases hh)
    | .error _, .ok _ => isFalse (fun hh => by cases hh)

/-- The parser composed with the generator (the round-trip's one pass). -/
def parseThenGenerate (t : String) : Option String :=
  (parseMarkdown t).toOption.map generateMarkdown

/-- Code-fence flag after a run of lines that contain no column heading. -/
def foldFence (b : Bool) (lines : List (List Char)) : Bool :=
  lines.foldl (fun acc l => if startsWith fenceTok (jsTrim l) then !acc else acc) b

/-- The indentation invariants of one card. -/
def goodCard (c : Card) : Prop :=
  0 ≤ c.indentation ∧ ∀ st ∈ c.subtasks, 0 ≤ st.indentation

/-- The indentation invariants of every card of every column. -/
def goodCols (cols : List Column) : Prop :=
  ∀ col ∈ cols, ∀ c ∈ col.cards, goodCard c

/-- Spec-modelled tag emission of the amended claim: walk the stored tags in
order, suppressing a token exactly when the literal hash-tag substring already
occurs in the line built so far. -/
def appendTagTokens (lineSoFar : String) : List String → String
  | [] => lineSoFar
  | tag :: rest =>
    if containsSub ('#' :: tag.data) lineSoFar.data then appendTagTokens lineSoFar rest
    else appendTagTokens (lineSoFar ++ " #" ++ tag) rest

/-- Spec-modelled card line of the amended claim: indentation, dash, checkbox,
text, then the optional priority and due-date tokens in that fixed order, then
the tag tokens. -/
def cardLineSpecAmended (card : Card) : String :=
  appendTagTokens
    (indentStr card.indentation ++ "- " ++ checkboxStr card.completed ++ " " ++ card.text
      ++ (match card.priority with
          | some p => if p.isEmpty then "" else " !" ++ p
          | none => "")
      ++ (match card.dueDate with
          | some d => if d.isEmpty then "" else " @due(" ++ d ++ ")"
          | none => ""))
    card.tags

/-- Modelled from the claim as stated: the tag token suppression tested against
the card text alone rather than against the line built so far. -/
def cardLineClaim (card : Card) : String :=
  let base := indentStr card.indentation ++ "- " ++ checkboxStr card.completed ++ " " ++ card.text
  let base :=
    match card.priority with
    | some p => if p.isEmpty then base else base ++ " !" ++ p
    | none => base
  let base :=
    match card.dueDate with
    | some d => if d.isEmpty then base else base ++ " @due(" ++ d ++ ")"
    | none => base
  card.tags.foldl
    (fun cardLine tag =>
      if containsSub ('#' :: tag.data) card.text.data then cardLine
      else cardLine ++ " #" ++ tag)
    base

/-- Spec-modelled pass two of the amended claim: keep each bare url unless its
string is already among the targets seen so far (the pass-one targets plus the
bare urls already kept). -/
def bareKeep (seen : List String) : List String → List String
  | [] => []
  | u :: us =>
    if seen.any (fun h => h == u) then bareKeep seen us
    else u :: bareKeep (u :: seen) us

/-- Spec-modelled link extraction of the amended claim: all pass-one links in
document order, then the kept bare urls in document order, each as its own
display text and target. -/
def extractLinksSpecAmended (text : String) : List LinkRef :=
  let pass1 := scanMdLinks text.data.length text.data
  let bares := (scanBareUrls text.data.length none text.data).map String.mk
  pass1 ++ (bareKeep (pass1.map LinkRef.href) bares).map (fun u => ⟨u, u⟩)

/-!
Helper lemmas about the embedding.
-/

theorem modifyLast_eq_nil_iff {α : Type} (f : α → α) (l : List α) :
    modifyLast f l = [] ↔ l = [] := by
  cases l with
  | nil => simp [modifyLast]
  | cons a t => cases t <;> simp [modifyLast]

theorem mem_modifyLast {α : Type} (f : α → α) :
    ∀ (l : List α) (x : α), x ∈ modifyLast f l → x ∈ l ∨ ∃ y, y ∈ l ∧ x = f y := by
  intro l
  induction l with
  | nil => simp [modifyLast]
  | cons a t ih =>
    cases t with
    | nil =>
      intro x hx
      simp [modifyLast] at hx
      exact Or.inr ⟨a, by simp, hx⟩
    | cons b t2 =>
      intro x hx
      simp only [modifyLast, List.mem_cons] at hx
      rcases hx with h | h
      · exact Or.inl (by simp [h])
      · rcases ih x h with h2 | ⟨y, hy, hxy⟩
        · exact Or.inl (by simp [h2])
        · exact Or.inr ⟨y, by simp [hy], hxy⟩

theorem heading_shape {t : List Char} (h : startsWith headingTok t = true) :
    ∃ r, t = '#' :: '#' :: r := by
  match t with
  | [] => simp [startsWith, show headingTok = ['#', '#'] from rfl] at h
  | [c] => simp [startsWith, show headingTok = ['#', '#'] from rfl] at h
  | c :: d :: r =>
    simp [startsWith, show headingTok = ['#', '#'] from rfl] at h
    exact ⟨r, by simp [h.1.symm, h.2.symm]⟩

theorem dash_shape {t : List Char} (h : startsWith dashTok t = true) :
    ∃ r, t = '-' :: r := by
  match t with
  | [] => simp [startsWith, show dashTok = ['-'] from rfl] at h
  | c :: r =>
    simp [startsWith, show dashTok = ['-'] from rfl] at h
    exact ⟨r, by simp [h.symm]⟩

theorem search_mem_cases (l : List Char) : search l = -1 ∨ 0 ≤ search l := by
  induction l with
  | nil => exact Or.inl rfl
  | cons c r ih =>
    by_cases hw : isWS c = true
    · by_cases hr : search r = -1
      · left
        have : (search r == -1) = true := by simpa using hr
        simp [search, hw, this]
      · right
        rcases ih with h | h
        · exact absurd h hr
        · have : (search r == -1) = false := by simpa using hr
          simp [search, hw, this]
          omega
    · right
      simp only [Bool.not_eq_true] at hw
      simp [search, hw]

theorem jsTrim_nil_of_all_ws (l : List Char) (h : ∀ c ∈ l, isWS c = true) :
    jsTrim l = [] := by
  unfold jsTrim
  have h1 : l.dropWhile isWS = [] := List.dropWhile_eq_nil_iff.mpr h
  simp [h1]

theorem all_ws_of_search_neg (l : List Char) :
    search l = -1 → ∀ c ∈ l, isWS c = true := by
  induction l with
  | nil => simp
  | cons a r ih =>
    intro h c hc
    by_cases ha : isWS a = true
    · rcases List.mem_cons.mp hc with h1 | h1
      · subst h1; exact ha
      · have hr : search r = -1 := by
          by_cases hr2 : search r = -1
          · exact hr2
          · exfalso
            have hb : (search r == -1) = false := by simpa using hr2
            simp [search, ha, hb] at h
            rcases search_mem_cases r with h3 | h3
            · exact hr2 h3
            · omega
        exact ih hr c h1
    · exfalso
      simp [search, ha] at h

theorem search_nonneg_of_trim_ne (l : List Char) (h : jsTrim l ≠ []) : 0 ≤ search l := by
  rcases search_mem_cases l with hs | hs
  · exact absurd (jsTrim_nil_of_all_ws l (all_ws_of_search_neg l hs)) h
  · exact hs

theorem indent_nonneg_of_dash (l : List Char)
    (h : startsWith dashTok (jsTrim l) = true) : 0 ≤ Int.fdiv (search l) 2 := by
  have hne : jsTrim l ≠ [] := by
    intro hq
    rw [hq] at h
    simp [startsWith, show dashTok = ['-'] from rfl] at h
  exact Int.fdiv_nonneg (search_nonneg_of_trim_ne l hne) (by omega)

theorem runLine_fence (s : PState) (line : List Char)
    (hcard : s.cardOpen = true)
    (hfence : startsWith fenceTok (jsTrim line) = true) :
    runLine s line =
      { s with inCodeBlock := !s.inCodeBlock, columns := appendContent s.columns line } := by
  obtain ⟨cols, co, icb, il⟩ := s
  dsimp only at hcard
  subst hcard
  simp [runLine, step, hfence]

theorem runLine_inCode (s : PState) (line : List Char)
    (hcard : s.cardOpen = true) (hcode : s.inCodeBlock = true)
    (hfence : startsWith fenceTok (jsTrim line) = false) :
    runLine s line = { s with columns := appendContent s.columns line } := by
  obtain ⟨cols, co, icb, il⟩ := s
  dsimp only at hcard hcode
  subst hcard hcode
  simp [runLine, step, hfence]

theorem runLine_heading (s : PState) (l : List Char)
    (hcard : s.cardOpen = false) (hhead : startsWith headingTok (jsTrim l) = true) :
    runLine s l = { s with
      columns := s.columns ++ [⟨String.mk (headingTitle (jsTrim l)), []⟩],
      cardOpen := false } := by
  obtain ⟨r, hr⟩ := heading_shape hhead
  obtain ⟨cols, co, icb, il⟩ := s
  dsimp only at hcard
  subst hcard
  simp [runLine, step, hr, startsWith, show fenceTok = ['\x60', '\x60', '\x60'] from rfl,
    show hrTok = ['-', '-', '-'] from rfl, show pctTok = ['%'] from rfl,
    show dashTok = ['-'] from rfl, hhead]

theorem runLine_no_column (s : PState) (l : List Char)
    (hcols : s.columns = []) (hcard : s.cardOpen = false)
    (hhead : startsWith headingTok (jsTrim l) = false) :
    runLine s l = { s with inCodeBlock :=
      (if startsWith fenceTok (jsTrim l) then !s.inCodeBlock else s.inCodeBlock) } := by
  obtain ⟨cols, co, icb, il⟩ := s
  dsimp only at hcols hcard
  subst hcols hcard
  by_cases hf : startsWith fenceTok (jsTrim l) = true
  · simp [runLine, step, hf]
  · simp only [Bool.not_eq_true] at hf
    by_cases hskip : (((jsTrim l).isEmpty || startsWith hrTok (jsTrim l) ||
        startsWith pctTok (jsTrim l)) && !false) = true
    · simp [runLine, step, hf, hskip, hhead]
    · simp only [Bool.not_eq_true] at hskip
      simp [runLine, step, hf, hskip, hhead]

theorem runLine_dash_no_column (s : PState) (l : List Char)
    (hcols : s.columns = []) (hcard : s.cardOpen = false)
    (hdash : startsWith dashTok (jsTrim l) = true) :
    runLine s l = s := by
  obtain ⟨r, hr⟩ := dash_shape hdash
  obtain ⟨cols, co, icb, il⟩ := s
  dsimp only at hcols hcard
  subst hcols hcard
  by_cases hskip : startsWith hrTok (jsTrim l) = true
  · simp [runLine, step, hr, hskip, startsWith,
      show fenceTok = ['\x60', '\x60', '\x60'] from rfl,
      show headingTok = ['#', '#'] from rfl]
  · simp only [Bool.not_eq_true] at hskip
    simp [runLine, step, hr, hskip, startsWith,
      show fenceTok = ['\x60', '\x60', '\x60'] from rfl,
      show headingTok = ['#', '#'] from rfl]

theorem step_columns_ne_nil (s : PState) (l : List Char) (h : s.columns ≠ []) :
    ((step s l).1).columns ≠ [] := by
  unfold step
  dsimp only
  repeat' split
  all_goals simp_all [appendContent, modifyLastCard, pushCard, modifyLast_eq_nil_iff]

theorem runLine_columns_ne_nil (s : PState) (l : List Char) (h : s.columns ≠ []) :
    (runLine s l).columns ≠ [] := by
  unfold runLine
  rcases hs : step s l with ⟨s1, b⟩
  have h1 : s1.columns ≠ [] := by
    have := step_columns_ne_nil s l h
    rw [hs] at this
    exact this
  cases b
  · exact h1
  · have := step_columns_ne_nil s1 l h1
    exact this

theorem foldl_columns_ne_nil (lines : List (List Char)) :
    ∀ (s : PState), s.columns ≠ [] → (List.foldl runLine s lines).columns ≠ [] := by
  induction lines with
  | nil => intro s h; simpa using h
  | cons l ls ih =>
    intro s h
    simp only [List.foldl_cons]
    exact ih _ (runLine_columns_ne_nil s l h)

theorem foldl_no_heading (lines : List (List Char)) :
    ∀ (b : Bool) (n : Int),
      (∀ l ∈ lines, startsWith headingTok (jsTrim l) = false) →
      List.foldl runLine ⟨[], false, b, n⟩ lines = ⟨[], false, foldFence b lines, n⟩ := by
  induction lines with
  | nil => intro b n _; simp [foldFence]
  | cons l ls ih =>
    intro b n hh
    have h1 : startsWith headingTok (jsTrim l) = false := hh l (by simp)
    have h2 : ∀ x ∈ ls, startsWith headingTok (jsTrim x) = false :=
      fun x hx => hh x (by simp [hx])
    simp only [List.foldl_cons]
    rw [runLine_no_column ⟨[], false, b, n⟩ l rfl rfl h1]
    simp only [foldFence, List.foldl_cons]
    exact ih _ n h2

theorem foldl_heading_ne (lines : List (List Char)) :
    ∀ (b : Bool) (n : Int), hasHeadingLine lines = true →
      (List.foldl runLine ⟨[], false, b, n⟩ lines).columns ≠ [] := by
  induction lines with
  | nil => intro b n h; simp [hasHeadingLine] at h
  | cons l ls ih =>
    intro b n h
    by_cases hh : startsWith headingTok (jsTrim l) = true
    · simp only [List.foldl_cons]
      apply foldl_columns_ne_nil
      rw [runLine_heading ⟨[], false, b, n⟩ l rfl hh]
      simp
    · simp only [Bool.not_eq_true] at hh
      have h2 : hasHeadingLine ls = true := by
        simp [hasHeadingLine, hh] at h
        simpa [hasHeadingLine] using h
      simp only [List.foldl_cons]
      rw [runLine_no_column ⟨[], false, b, n⟩ l rfl rfl hh]
      exact ih _ n h2

theorem parseLines_ok_of_heading (lines : List (List Char))
    (h : hasHeadingLine lines = true) :
    ∃ cols, parseLines lines = Except.ok cols ∧ 0 < cols.length := by
  have hne : (List.foldl runLine initState lines).columns ≠ [] :=
    foldl_heading_ne lines false 0 h
  unfold parseLines
  dsimp only
  rcases hcv : (List.foldl runLine initState lines).columns with _ | ⟨c, cs⟩
  · exact absurd hcv hne
  · simp [hcv]

theorem parseLines_error_of_no_heading (lines : List (List Char))
    (h : hasHeadingLine lines = false) :
    parseLines lines = Except.error "No valid kanban columns found in the markdown file" := by
  have hall : ∀ l ∈ lines, startsWith headingTok (jsTrim l) = false := by
    intro l hl
    by_contra hc
    simp only [Bool.not_eq_false] at hc
    have : hasHeadingLine lines = true := by
      simp only [hasHeadingLine, List.any_eq_true]
      exact ⟨l, hl, hc⟩
    simp [this] at h
  have := foldl_no_heading lines false 0 hall
  unfold parseLines
  rw [show initState = ⟨[], false, false, 0⟩ from rfl, this]
  simp

theorem goodCols_modifyLastCard (cols : List Column) (f : Card → Card)
    (h : goodCols cols) (hf : ∀ c, goodCard c → goodCard (f c)) :
    goodCols (modifyLastCard f cols) := by
  intro col hcol c hc
  rcases mem_modifyLast _ _ _ hcol with h1 | ⟨col2, hcol2, rfl⟩
  · exact h col h1 c hc
  · dsimp only at hc
    rcases mem_modifyLast _ _ _ hc with h2 | ⟨c2, hc2, rfl⟩
    · exact h col2 hcol2 c h2
    · exact hf c2 (h col2 hcol2 c2 hc2)

theorem goodCols_pushCard (cols : List Column) (card : Card)
    (h : goodCols cols) (hc : goodCard card) :
    goodCols (pushCard cols card) := by
  intro col hcol c hcc
  rcases mem_modifyLast _ _ _ hcol with h1 | ⟨col2, hcol2, rfl⟩
  · exact h col h1 c hcc
  · dsimp only at hcc
    rcases List.mem_append.mp hcc with h2 | h2
    · exact h col2 hcol2 c h2
    · rw [List.mem_singleton.mp h2]
      exact hc

theorem mkCard_indentation (t : List Char) (i : Int) : (mkCard t i).indentation = i := by
  unfold mkCard
  rcases stripCheckbox (jsTrim (t.drop 1)) with ⟨t1, b⟩
  rcases extractDueDate t1 with ⟨t2, d⟩
  rcases extractPriority t2 with ⟨t3, p⟩
  rfl

theorem mkCard_subtasks (t : List Char) (i : Int) : (mkCard t i).subtasks = [] := by
  unfold mkCard
  rcases stripCheckbox (jsTrim (t.drop 1)) with ⟨t1, b⟩
  rcases extractDueDate t1 with ⟨t2, d⟩
  rcases extractPriority t2 with ⟨t3, p⟩
  rfl

theorem goodCard_mkCard (t : List Char) (i : Int) (h : 0 ≤ i) : goodCard (mkCard t i) := by
  constructor
  · rw [mkCard_indentation]; exact h
  · rw [mkCard_subtasks]; simp

theorem mkSubtask_indentation (t : List Char) (r : Int) :
    (mkSubtask t r).indentation = r := by
  unfold mkSubtask
  rcases stripCheckbox (jsTrim (t.drop 1)) with ⟨t1, b⟩
  rfl

theorem step_good (s : PState) (l : List Char) (h : goodCols s.columns) :
    goodCols ((step s l).1).columns := by
  unfold step
  dsimp only
  repeat' split
  all_goals dsimp only
  all_goals first
    | exact h
    | (apply goodCols_modifyLastCard _ _ h
       intro c hc
       exact ⟨hc.1, hc.2⟩)
    | (intro col hcol c hc
       rcases List.mem_append.mp hcol with h1 | h1
       · exact h col h1 c hc
       · rw [List.mem_singleton.mp h1] at hc
         simp at hc)
    | (rename_i hcond
       simp only [Bool.and_eq_true] at hcond
       exact goodCols_pushCard _ _ h
         (goodCard_mkCard _ _ (indent_nonneg_of_dash l hcond.1)))
    | (rename_i hdash hlt
       apply goodCols_modifyLastCard _ _ h
       intro c hc
       refine ⟨hc.1, fun st hst => ?_⟩
       rcases List.mem_append.mp hst with h1 | h1
       · exact hc.2 st h1
       · rw [List.mem_singleton.mp h1, mkSubtask_indentation]
         omega)

theorem runLine_good (s : PState) (l : List Char) (h : goodCols s.columns) :
    goodCols (runLine s l).columns := by
  unfold runLine
  rcases hs : step s l with ⟨s1, b⟩
  have h1 : goodCols s1.columns := by
    have := step_good s l h
    rw [hs] at this
    exact this
  cases b
  · exact h1
  · exact step_good s1 l h1

theorem foldl_good (lines : List (List Char)) :
    ∀ (s : PState), goodCols s.columns →
      goodCols (List.foldl runLine s lines).columns := by
  induction lines with
  | nil => intro s h; simpa using h
  | cons l ls ih =>
    intro s h
    simp only [List.foldl_cons]
    exact ih _ (runLine_good s l h)

theorem foldl_tags_eq_appendTagTokens (tags : List String) :
    ∀ (base : String),
      tags.foldl
        (fun cardLine tag =>
          if containsSub ('#' :: tag.data) cardLine.data then cardLine
          else cardLine ++ " #" ++ tag) base
      = appendTagTokens base tags := by
  induction tags with
  | nil => intro base; rfl
  | cons t ts ih =>
    intro base
    simp only [List.foldl_cons, appendTagTokens]
    by_cases hc : containsSub ('#' :: t.data) base.data = true
    · rw [if_pos hc, if_pos hc, ih]
    · simp only [Bool.not_eq_true] at hc
      rw [if_neg (by simp [hc]), if_neg (by simp [hc]), ih]

theorem genCardLine_eq_amended (card : Card) :
    genCardLine card = cardLineSpecAmended card := by
  unfold genCardLine cardLineSpecAmended
  rw [foldl_tags_eq_appendTagTokens]
  congr 1
  rcases card.priority with _ | p <;> rcases card.dueDate with _ | d <;>
    simp [String.append_assoc] <;>
    (try by_cases hp : p.isEmpty) <;> (try by_cases hd : d.isEmpty) <;>
    simp_all [String.append_assoc]

theorem bareKeep_congr (us : List String) :
    ∀ (seen1 seen2 : List String),
      (∀ u, seen1.any (fun h => h == u) = seen2.any (fun h => h == u)) →
      bareKeep seen1 us = bareKeep seen2 us := by
  induction us with
  | nil => intro seen1 seen2 _; rfl
  | cons u us ih =>
    intro seen1 seen2 hsame
    simp only [bareKeep, hsame u]
    by_cases hc : seen2.any (fun h => h == u) = true
    · rw [if_pos hc, if_pos hc]
      exact ih seen1 seen2 hsame
    · simp only [Bool.not_eq_true] at hc
      rw [if_neg (by simp [hc]), if_neg (by simp [hc])]
      refine congrArg _ (ih _ _ ?_)
      intro v
      simp [hsame v]

theorem foldl_bares_eq_bareKeep (bares : List (List Char)) :
    ∀ (acc : List LinkRef),
      bares.foldl
        (fun links url =>
          if links.any (fun lk => lk.href == String.mk url) then links
          else links ++ [⟨String.mk url, String.mk url⟩]) acc
      = acc ++ (bareKeep (acc.map LinkRef.href) (bares.map String.mk)).map (fun u => ⟨u, u⟩) := by
  induction bares with
  | nil => intro acc; simp [bareKeep]
  | cons u us ih =>
    intro acc
    simp only [List.foldl_cons, List.map_cons, bareKeep]
    have hany : (acc.any fun lk => lk.href == String.mk u)
        = ((acc.map LinkRef.href).any fun h => h == String.mk u) := by
      induction acc with
      | nil => rfl
      | cons a as iha => simp [iha]
    by_cases hc : (acc.any fun lk => lk.href == String.mk u) = true
    · rw [if_pos hc, if_pos (by rw [← hany]; exact hc), ih]
    · simp only [Bool.not_eq_true] at hc
      rw [if_neg (by simp [hc]), if_neg (by rw [← hany]; simp [hc]), ih]
      simp only [List.map_append, List.map_cons, List.map_nil]
      rw [List.append_assoc]
      refine congrArg _ ?_
      have hseen : ∀ v,
          ((acc.map LinkRef.href ++ [String.mk u]).any (fun h => h == v))
            = ((String.mk u :: acc.map LinkRef.href).any (fun h => h == v)) := by
        intro v
        simp [List.any_append, Bool.or_comm]
      rw [bareKeep_congr (us.map String.mk) _ _ hseen]
      simp

theorem extractLinks_eq_amended (text : String) :
    extractLinks text = extractLinksSpecAmended text := by
  unfold extractLinks extractLinksSpecAmended
  exact foldl_bares_eq_bareKeep _ _

/-!
The claim theorems, their witnesses and counterexamples.
-/

/-- C1: the round-trip idempotence fails on the code: for the parseable input consisting of one column and one card, generating, re-parsing and generating again does not reproduce the first generation, because the re-parse appends the generated settings trailer and blank lines to the still-open last card as content. -/
theorem roundtrip_not_idempotent :
    ((parseThenGenerate "## A\n- [ ] x").bind parseThenGenerate)
      ≠ parseThenGenerate "## A\n- [ ] x" := by decide

/-- C2 counterexample: on the claimed input line the parsed card text is not "Ship it": the tag extraction never removes its token, so the text keeps the hash-release token and the interior spacing left by the other removals. -/
theorem metadata_text_cex :
    ((parseMarkdown "## A\n- [ ] Ship it !high @due(2025-03-01) #release").toOption.map
        (fun cols => cols.map fun col => col.cards.map Card.text))
      = some [["Ship it   #release"]]
    ∧ ("Ship it   #release" : String) ≠ "Ship it" := by decide

/-- C2 amended: the card parsed from the example line has priority high, due date 2025-03-01 and tags [release] as claimed, but its text is "Ship it   #release": only the due-date and priority extractions remove their first matched token, tags are collected without mutation of the working text. -/
theorem metadata_extraction_amended :
    parseMarkdown "## A\n- [ ] Ship it !high @due(2025-03-01) #release" =
      Except.ok [⟨"A", [⟨"Ship it   #release", false, 0, "", [], ["release"],
        some "2025-03-01", some "high", []⟩]⟩] := by decide

/-- C3: the parser fails exactly when no line of the input trims to a string starting with a double hash; with at least one such line it returns a board with at least one column, and with none it raises the single structure error. -/
theorem parse_error_iff_no_heading (md : String) :
    (hasHeadingLine (splitOnNl md.data) = true →
      ∃ cols, parseMarkdown md = Except.ok cols ∧ 0 < cols.length) ∧
    (hasHeadingLine (splitOnNl md.data) = false →
      parseMarkdown md = Except.error "No valid kanban columns found in the markdown file") :=
  ⟨fun h => parseLines_ok_of_heading _ h, fun h => parseLines_error_of_no_heading _ h⟩

/-- C3 witness: the theorem instantiated at an input with a heading and at one without. -/
theorem parse_error_iff_no_heading_witness :
    (∃ cols, parseMarkdown "## A" = Except.ok cols ∧ 0 < cols.length) ∧
    parseMarkdown "plain text"
      = Except.error "No valid kanban columns found in the markdown file" :=
  ⟨(parse_error_iff_no_heading "## A").1 (by decide),
   (parse_error_iff_no_heading "plain text").2 (by decide)⟩

/-- C4 counterexample: a blank line and an indented note line become the open card content but are trimmed of the leading blank line and the leading whitespace, and a dash-dash-dash line does not become content at all: it starts a new card with text dash-dash; the claim predicted a single card with content preserving the leading whitespace and the fence line. -/
theorem content_lines_cex :
    ((parseMarkdown "## A\n- [ ] x\n\n  note\n---\nrest").toOption.map
        (fun cols => cols.map fun col => col.cards.map fun c => (c.text, c.content)))
      = some [[("x", "note"), ("--", "rest")]]
    ∧ [[(("x" : String), ("note" : String)), ("--", "rest")]]
        ≠ [[("x", "\n  note\n---\nrest")]] := by decide

/-- C4 amended: while a card is open and outside a code block, every line that is not a fence line and whose trimmed form starts with neither a double hash nor a dash (blank and percent lines included) is appended verbatim plus a newline to the open card content, and nothing else in the parse state changes. -/
theorem content_line_append_amended (s : PState) (line : List Char)
    (hcard : s.cardOpen = true) (hcode : s.inCodeBlock = false)
    (hfence : startsWith fenceTok (jsTrim line) = false)
    (hhead : startsWith headingTok (jsTrim line) = false)
    (hdash : startsWith dashTok (jsTrim line) = false) :
    runLine s line = { s with columns := appendContent s.columns line } := by
  obtain ⟨cols, co, icb, il⟩ := s
  dsimp only at hcard hcode
  subst hcard hcode
  by_cases hcols : cols.isEmpty
  · have hc : cols = [] := by simpa [List.isEmpty_iff] using hcols
    subst hc
    simp [runLine, step, hfence, hhead, hdash, appendContent, modifyLastCard, modifyLast]
  · simp only [Bool.not_eq_true] at hcols
    simp [runLine, step, hfence, hhead, hdash, hcols]

/-- C4 witness: the amended step property at a concrete open-card state and a concrete indented note line. -/
theorem content_line_append_amended_witness :
    runLine ⟨[⟨"A", [⟨"x", false, 0, "", [], [], none, none, []⟩]⟩], true, false, 0⟩
        ("  note".data)
      = { (⟨[⟨"A", [⟨"x", false, 0, "", [], [], none, none, []⟩]⟩], true, false, 0⟩ : PState)
          with columns := (appendContent
            [⟨"A", [⟨"x", false, 0, "", [], [], none, none, []⟩]⟩] ("  note".data)) } :=
  content_line_append_amended _ _ rfl rfl rfl rfl rfl

/-- C5: while a card is open, a fence line is appended verbatim plus a newline to the card content while toggling the code-block flag, and any line read inside a code block is appended verbatim plus a newline with no other state change, so no heading, card, subtask or metadata interpretation happens inside a fence. -/
theorem fence_content_verbatim (s : PState) (line : List Char)
    (hcard : s.cardOpen = true) :
    (startsWith fenceTok (jsTrim line) = true →
      runLine s line =
        { s with inCodeBlock := !s.inCodeBlock, columns := appendContent s.columns line }) ∧
    (s.inCodeBlock = true → startsWith fenceTok (jsTrim line) = false →
      runLine s line = { s with columns := appendContent s.columns line }) :=
  ⟨fun hf => runLine_fence s line hcard hf,
   fun hc hf => runLine_inCode s line hcard hc hf⟩

/-- C5 witness: both parts of the theorem at a concrete open-card in-code-block state. -/
theorem fence_content_verbatim_witness :
    (runLine ⟨[⟨"A", [⟨"x", false, 0, "", [], [], none, none, []⟩]⟩], true, true, 0⟩
        ("```".data)
      = { (⟨[⟨"A", [⟨"x", false, 0, "", [], [], none, none, []⟩]⟩], true, true, 0⟩ : PState)
          with inCodeBlock := !true, columns := (appendContent
            [⟨"A", [⟨"x", false, 0, "", [], [], none, none, []⟩]⟩] ("```".data)) })
    ∧ (runLine ⟨[⟨"A", [⟨"x", false, 0, "", [], [], none, none, []⟩]⟩], true, true, 0⟩
        ("## not a heading".data)
      = { (⟨[⟨"A", [⟨"x", false, 0, "", [], [], none, none, []⟩]⟩], true, true, 0⟩ : PState)
          with columns := (appendContent
            [⟨"A", [⟨"x", false, 0, "", [], [], none, none, []⟩]⟩] ("## not a heading".data)) }) :=
  ⟨(fence_content_verbatim _ _ rfl).1 rfl,
   (fence_content_verbatim _ _ rfl).2 rfl rfl⟩

/-- C6 counterexample: for a card with duplicate stored tags the generator emits the tag token once, because the suppression tests the line built so far; the claim, which tests the card text alone, predicts the token twice. -/
theorem generate_tag_suppression_cex :
    genCardLine ⟨"x", false, 0, "", [], ["t", "t"], none, none, []⟩ = "- [ ] x #t"
    ∧ cardLineClaim ⟨"x", false, 0, "", [], ["t", "t"], none, none, []⟩ = "- [ ] x #t #t"
    ∧ generateMarkdown [⟨"A", [⟨"x", false, 0, "", [], ["t", "t"], none, none, []⟩]⟩]
        = frontMatterStr ++ "## A\n\n" ++ "- [ ] x #t" ++ "\n\n\n" ++ settingsStr
    ∧ ("- [ ] x #t" : String) ≠ "- [ ] x #t #t" := by decide

/-- C6 amended: the generator renders a single-card board as the frontmatter, the heading, and the card line of the amended claim, whose tag tokens are suppressed against the line built so far (card text, priority and due tokens, and previously emitted tags). -/
theorem generate_card_line_amended (title : String) (card : Card)
    (h1 : card.content = "") (h2 : card.subtasks = []) :
    generateMarkdown [⟨title, [card]⟩] =
      frontMatterStr ++ "## " ++ title ++ "\n\n" ++ cardLineSpecAmended card
        ++ "\n\n\n" ++ settingsStr := by
  unfold generateMarkdown genColumn genCard
  simp only [List.foldl_cons, List.foldl_nil]
  rw [h1, h2]
  rw [show ("\n\n\n" : String) = "\n" ++ "\n" ++ "\n" from rfl]
  simp only [show ("" : String).isEmpty = true from rfl, if_true]
  simp [genCardLine_eq_amended, String.append_assoc]

/-- C6 witness: the amended rendering equation at a concrete card. -/
theorem generate_card_line_amended_witness :
    generateMarkdown [⟨"A", [⟨"x", false, 0, "", [], ["t"], none, none, []⟩]⟩]
      = frontMatterStr ++ "## " ++ "A" ++ "\n\n"
          ++ cardLineSpecAmended ⟨"x", false, 0, "", [], ["t"], none, none, []⟩
          ++ "\n\n\n" ++ settingsStr :=
  generate_card_line_amended "A" _ rfl rfl

/-- C7 counterexample: two occurrences of the same bare url yield one link, because the deduplication also tests bare urls added earlier in pass two; the claim, which tests only pass-one targets, predicts two links. -/
theorem extract_links_dedup_cex :
    extractLinks "https://y.io https://y.io" = [⟨"https://y.io", "https://y.io"⟩]
    ∧ ([(⟨"https://y.io", "https://y.io"⟩ : LinkRef)])
        ≠ [⟨"https://y.io", "https://y.io"⟩, ⟨"https://y.io", "https://y.io"⟩] := by decide

/-- C7 amended: the link extractor returns all pass-one inline links first in document order, then each bare url (not preceded by an open paren) whose string is not already the target of any earlier link, pass-one links and previously kept bare urls alike; the claimed example input still yields its two links in order. -/
theorem extract_links_amended :
    (∀ text, extractLinks text = extractLinksSpecAmended text) ∧
    extractLinks "see [docs](https://x.io/d) and https://y.io" =
      [⟨"docs", "https://x.io/d"⟩, ⟨"https://y.io", "https://y.io"⟩] :=
  ⟨extractLinks_eq_amended, by decide⟩

/-- C8: the code at the failing input: a checklist line indented below a card is parsed as a second card with the absolute indentation, not as a subtask of the first; both subtask lists stay empty, contradicting the claim (the dispatch of dash lines into new cards precedes and shadows the subtask branch, which is unreachable). -/
theorem subtask_line_becomes_card :
    parseMarkdown "## A\n- [ ] p\n    - [ ] c" =
      Except.ok [⟨"A", [⟨"p", false, 0, "", [], [], none, none, []⟩,
        ⟨"c", false, 2, "", [], [], none, none, []⟩]⟩] := by decide

/-- C9: every successful parse yields at least one column, and every card and subtask has a boolean completion flag and a non-negative indentation. -/
theorem parse_invariants (md : String) (cols : List Column)
    (h : parseMarkdown md = Except.ok cols) :
    cols ≠ [] ∧ ∀ col ∈ cols, ∀ c ∈ col.cards,
      0 ≤ c.indentation ∧ (c.completed = true ∨ c.completed = false) ∧
      ∀ st ∈ c.subtasks,
        0 ≤ st.indentation ∧ (st.completed = true ∨ st.completed = false) := by
  unfold parseMarkdown parseLines at h
  dsimp only at h
  split at h
  · exact absurd h (by simp)
  · rename_i hne
    injection h with h2
    subst h2
    constructor
    · intro hnil
      rw [hnil] at hne
      simp at hne
    · intro col hcol c hc
      have hgood := foldl_good (splitOnNl md.data) initState (by intro col h0; simp [initState] at h0)
      rcases List.mem_map.mp hcol with ⟨col0, hcol0, rfl⟩
      dsimp only at hc
      rcases List.mem_map.mp hc with ⟨c0, hc0, rfl⟩
      have hg := hgood col0 hcol0 c0 hc0
      refine ⟨hg.1, by cases c0.completed <;> simp, ?_⟩
      intro st hst
      dsimp only at hst
      exact ⟨hg.2 st hst, by cases st.completed <;> simp⟩

/-- C9 witness: the invariants instantiated at a concrete parse. -/
theorem parse_invariants_witness :
    ([⟨"A", [⟨"x", false, 0, "", [], [], none, none, []⟩]⟩] : List Column) ≠ [] ∧
    ∀ col ∈ ([⟨"A", [⟨"x", false, 0, "", [], [], none, none, []⟩]⟩] : List Column),
      ∀ c ∈ col.cards,
        0 ≤ c.indentation ∧ (c.completed = true ∨ c.completed = false) ∧
        ∀ st ∈ c.subtasks,
          0 ≤ st.indentation ∧ (st.completed = true ∨ st.completed = false) :=
  parse_invariants "## A\n- [ ] x" _ (by decide)

/-- C10: a line whose trimmed form starts with a dash and that occurs before the first column heading is silently discarded: deleting it from the line list leaves the parse result unchanged. -/
theorem dash_before_heading_discarded (pre post : List (List Char)) (line : List Char)
    (hpre : ∀ l ∈ pre, startsWith headingTok (jsTrim l) = false)
    (hdash : startsWith dashTok (jsTrim line) = true) :
    parseLines (pre ++ line :: post) = parseLines (pre ++ post) := by
  have hfold := foldl_no_heading pre false 0 hpre
  have key : List.foldl runLine initState (pre ++ line :: post)
      = List.foldl runLine initState (pre ++ post) := by
    rw [List.foldl_append, List.foldl_append]
    rw [show initState = (⟨[], false, false, 0⟩ : PState) from rfl, hfold]
    simp only [List.foldl_cons]
    rw [runLine_dash_no_column ⟨[], false, foldFence false pre, 0⟩ line rfl rfl hdash]
  unfold parseLines
  rw [key]

/-- C10 witness: the deletion equation at a concrete input. -/
theorem dash_before_heading_discarded_witness :
    parseLines (["intro text".data] ++ ("- [ ] hello".data) :: ["## A".data])
      = parseLines (["intro text".data] ++ ["## A".data]) :=
  dash_before_heading_discarded _ _ _ (by decide) (by decide)

end Kanban
